import Mathlib

/-!
Verification development for the hh-deep-deep crawl-control service.

The definitions below are a shallow embedding of the Python sources
`service.py`, `crawl_utils.py` and `deepdeep_crawl.py`:

* the in-memory registry `self.running` (a Python dict keyed by job id) is
  an association list `List (String × Proc)` with dict-style lookup,
  `pop` and item assignment;
* the external worker runtime (docker) is abstracted: each process value
  records whether its `stop()` call raises, and `docker inspect` is a
  function from a container id to an inspection outcome;
* Python exceptions are explicit: handlers decorated with
  `log_ignore_exception` return the mutated state together with a flag
  telling whether the body completed (the decorator swallows the
  exception, but control never returns past the raising statement);
* machine floats (`time.time()`, item counters) are modelled as `ℚ`/`Int`;
* byte strings are `List Nat`.
-/

/-! ### Dict primitives (Python `dict` keyed by job id) -/

/-- Python `d.get(key)` / `d.get(key, None)` on an association list. -/
def lookupKey {α : Type} : List (String × α) → String → Option α
  | [], _ => none
  | (k, v) :: t, key => if k = key then some v else lookupKey t key

/-- Removal part of Python `d.pop(key, None)`: drop the binding of `key`
(if any), keeping every other binding in place. -/
def eraseKey {α : Type} : List (String × α) → String → List (String × α)
  | [], _ => []
  | (k, v) :: t, key => if k = key then t else (k, v) :: eraseKey t key

/-- Python `d[key] = v`: replace the value in place when the key is
present, append a new binding otherwise. -/
def setKey {α : Type} : List (String × α) → String → α → List (String × α)
  | [], key, v => [(key, v)]
  | (k, w) :: t, key, v =>
    if k = key then (k, v) :: t else (k, w) :: setKey t key v

/-- The keys of the association list are pairwise distinct (always true of
a Python dict). -/
def keysNodup {α : Type} (l : List (String × α)) : Prop :=
  (l.map Prod.fst).Nodup

/-! ### Processes as seen by `Service` (`service.py`)

`Service.start_crawl` / `stop_crawl` treat a `CrawlProcess` opaquely: it
has an id and its `start()` / `stop()` calls may raise (docker failures).
`tag` distinguishes distinct process instances with equal ids. -/

structure Proc where
  id : String
  stopFails : Bool
  startFails : Bool
  tag : Nat
deriving DecidableEq, Repr

/-- Observable runtime calls made by the handlers, in program order. -/
inductive Ev where
  | stopCalled (p : Proc)
  | startCalled (p : Proc)
  | registered (id : String) (p : Proc)
deriving DecidableEq, Repr

/-- Registry of running processes: `self.running` in `service.py`. -/
def Registry : Type := List (String × Proc)

/-- `Service.start_crawl` (service.py:86-98), decorator included.

Python body (straight-line, under `@log_ignore_exception`):
```
id_ = request['id']
current_process = self.running.pop(id_, None)
if current_process is not None:
    current_process.stop()
seeds = request['seeds']
page_clf_data = decode_model_data(request['page_model'])
process = self.process_class(id_=id_, seeds=seeds, page_clf_data=..., ...)
process.start()
self.running[id_] = process
```
Construction of the new process is deterministic from the request, so the
new `Proc` is a parameter.  If `current_process.stop()` raises, the
decorator catches the exception at the handler boundary: the `pop` has
already happened but nothing after the raising line runs, so the new
process is neither started nor registered.  The returned `Bool` is
`true` iff the body ran to completion. -/
def start_crawl (running : List (String × Proc)) (id : String) (newProc : Proc) :
    (List (String × Proc)) × List Ev × Bool :=
  let cur := lookupKey running id
  let running₁ := eraseKey running id
  match cur with
  | some old =>
    if old.stopFails then
      (running₁, [.stopCalled old], false)
    else if newProc.startFails then
      (running₁, [.stopCalled old, .startCalled newProc], false)
    else
      (setKey running₁ id newProc,
       [.stopCalled old, .startCalled newProc, .registered id newProc], true)
  | none =>
    if newProc.startFails then
      (running₁, [.startCalled newProc], false)
    else
      (setKey running₁ id newProc,
       [.startCalled newProc, .registered id newProc], true)

/-- `Service.stop_crawl` (service.py:100-108), decorator included.

Python body:
```
process = self.running.get(id_)
if process is not None:
    process.stop()
    self.running.pop(id_)
else:
    logging.info(...)
```
`process.stop()` runs before `self.running.pop(id_)`; if it raises, the
decorator catches the exception and the `pop` never runs. -/
def stop_crawl (running : List (String × Proc)) (id : String) :
    (List (String × Proc)) × List Ev × Bool :=
  match lookupKey running id with
  | some p =>
    if p.stopFails then (running, [.stopCalled p], false)
    else (eraseKey running id, [.stopCalled p], true)
  | none => (running, [], true)

/-! ### `CrawlProcess.load_all_running` (crawl_utils.py:44-57)

`load_all_running` iterates the sorted job directories and calls the
subclass's `load_running` on each (abstract at the base class: it is
`NotImplementedError` there), so the input is the list of `load_running`
results in sorted directory order.  `old_process.stop()` is not guarded
by any handler here: a raising stop aborts the whole scan. -/

structure LoadAcc where
  running : List (String × Proc)
  stopped : List Proc
deriving DecidableEq, Repr

/-- Loop body of `load_all_running`, accumulating the dict `running` and
recording which processes had `stop()` called on them.  A raising
`old_process.stop()` propagates (`.error`). -/
def load_all_loop (acc : LoadAcc) : List (Option Proc) → Except Unit LoadAcc
  | [] => .ok acc
  | none :: rest => load_all_loop acc rest
  | some p :: rest =>
    match lookupKey acc.running p.id with
    | some old =>
      if old.stopFails then .error ()
      else load_all_loop ⟨setKey acc.running p.id p, acc.stopped ++ [old]⟩ rest
    | none => load_all_loop ⟨setKey acc.running p.id p, acc.stopped⟩ rest

/-- `CrawlProcess.load_all_running`: fold the per-directory results into
the `running` dict, last writer wins. -/
def load_all_running (loaded : List (Option Proc)) : Except Unit LoadAcc :=
  load_all_loop ⟨[], []⟩ loaded

/-! ### `CrawlProcess.get_updates` / `get_n_last` (crawl_utils.py:71-94) -/

/-- Mutable per-process state read by `get_updates` and `get_n_last`:
`self.last_progress`, `self.last_progress_time` and the class constant
`target_sample_rate_pm = 3`.  Timestamps (`time.time()` floats) are `ℚ`. -/
structure CrawlState where
  lastProgress : Option String
  lastProgressTime : Option ℚ
  targetSampleRatePm : ℚ
deriving DecidableEq

/-- `CrawlProcess.get_updates` (crawl_utils.py:71-82).  `upd` is the
result of the subclass hook `self._get_updates()`, `now` the value of
`time.time()`.

```
updates = self._get_updates()
if updates is not None:
    progress, pages = updates
    if progress != self.last_progress:
        self.last_progress = progress
        self.last_progress_time = time.time()
        return progress, pages
```
(`progress != self.last_progress` is `True` when `last_progress` is
`None`, since a `str` never equals `None`.) -/
def get_updates (s : CrawlState) (upd : Option (String × List String)) (now : ℚ) :
    Option (String × List String) × CrawlState :=
  match upd with
  | none => (none, s)
  | some (progress, pages) =>
    if s.lastProgress = some progress then (none, s)
    else
      (some (progress, pages),
       { s with lastProgress := some progress, lastProgressTime := some now })

/-- `CrawlProcess.get_n_last` (crawl_utils.py:87-94).

```
if self.last_progress_time is None:
    return 1
delay_m = (time.time() - self.last_progress_time) / 60
return math.ceil(self.target_sample_rate_pm * delay_m)
``` -/
def get_n_last (s : CrawlState) (now : ℚ) : Int :=
  match s.lastProgressTime with
  | none => 1
  | some t => ⌈s.targetSampleRatePm * ((now - t) / 60)⌉

/-! ### `DeepDeepProcess.load_running` (deepdeep_crawl.py:33-63)

The job directory is the four files `load_running` reads (`id.txt`,
`pid.txt`, `seeds.txt`, `page_clf.joblib`); a `none` field is a missing
file.  The seeds file is abstracted to its parsed single-column csv rows,
the classifier blob to its bytes.  `docker inspect pid` either fails
(`CalledProcessError`, the handle is unknown to the runtime) or reports
the container's `State.Running` flag. -/

structure JobDir where
  idFile : Option String
  pidFile : Option String
  seedsFile : Option (List String)
  pageClfFile : Option (List Nat)
deriving DecidableEq, Repr

inductive InspectResult where
  /-- `docker inspect` exits nonzero (`subprocess.CalledProcessError`). -/
  | unknown
  /-- `docker inspect` succeeds; `running` is `State['Running']`. -/
  | state (running : Bool)
deriving DecidableEq, Repr

/-- A reconstructed `DeepDeepProcess`: the fields `load_running` passes to
the constructor. -/
structure DProc where
  pid : String
  id : String
  seeds : List String
  pageClfData : List Nat
deriving DecidableEq, Repr

/-- `DeepDeepProcess.load_running` (deepdeep_crawl.py:33-63).

```
paths = DeepDeepPaths(root)
if not all(p.exists() for p in [paths.id, paths.pid, paths.seeds, paths.page_clf]):
    return
pid = paths.pid.read_text()
try:
    inspect_result = json.loads(subprocess.check_output(['docker', 'inspect', pid]) ...)
except subprocess.CalledProcessError:
    paths.pid.unlink()
    return
state = inspect_result[0]['State']
if not state.get('Running'):
    paths.pid.unlink()
    subprocess.check_output(['docker', 'rm', pid])
    return
...
return cls(pid=pid, id_=paths.id.read_text(), seeds=seeds, page_clf_data=..., root=root)
```
Returns the loaded process (or `none`) together with the job directory
after any `pid` unlink. -/
def load_running (dir : JobDir) (inspect : String → InspectResult) :
    Option DProc × JobDir :=
  match dir.idFile, dir.pidFile, dir.seedsFile, dir.pageClfFile with
  | some idTxt, some pid, some seeds, some clf =>
    match inspect pid with
    | .unknown => (none, { dir with pidFile := none })
    | .state false => (none, { dir with pidFile := none })
    | .state true => (some ⟨pid, idTxt, seeds, clf⟩, dir)
  | _, _, _, _ => (none, dir)

/-! ### `DeepDeepProcess.get_new_model` (deepdeep_crawl.py:111-122)

```
model_files = sorted(
    self.paths.root.glob('Q-*.joblib'),
    key=lambda p: int(re.match(r'Q-(\d+)\.joblib', p.name).groups()[0]))
if model_files:
    model_file = model_files[-1]
    if model_file != self.last_model_file:
        self.last_model_file = model_file
        return model_file.read_bytes()
```
The job directory is a list of `(file name, file bytes)` pairs in
directory-listing order.  `sorted` computes the key of every glob match;
on a name the regex does not match, `re.match` returns `None` and
`.groups()` raises `AttributeError`, which propagates out of
`get_new_model` — modelled by `Except`.  `model_files[-1]` after a stable
ascending sort is the last listed file with the maximal key. -/

/-- Is the first character list an initial segment of the second?
(File names are handled as character lists.) -/
def charPrefix : List Char → List Char → Bool
  | [], _ => true
  | _ :: _, [] => false
  | a :: t, b :: u => a == b && charPrefix t u

/-- Python `int(...)` on a nonempty string of decimal digits. -/
def digitsToNat (ds : List Char) : Nat :=
  ds.foldl (fun acc c => acc * 10 + (c.toNat - 48)) 0

/-- Does a file name match the glob pattern `Q-*.joblib`, i.e. is it
`"Q-" ++ anything ++ ".joblib"`? -/
def globQJoblib (name : String) : Bool :=
  charPrefix "Q-".data name.data && charPrefix ".joblib".data.reverse name.data.reverse
    && decide (9 ≤ name.data.length)

/-- Python `re.match(r'Q-(\d+)\.joblib', name)` followed by
`int(....groups()[0])`: an anchored-at-start match of `Q-`, one or more
digits, then `.joblib` (the end of the name is not anchored), returning
the parsed integer.  Greedy `\d+` with backtracking agrees with
`takeWhile isDigit` here because `\.` can never match a digit. -/
def parseQNum (name : String) : Option Nat :=
  let cs := name.data
  if charPrefix "Q-".data cs then
    let rest := cs.drop 2
    let digits := rest.takeWhile Char.isDigit
    if digits.length ≠ 0 && charPrefix ".joblib".data (rest.drop digits.length) then
      some (digitsToNat digits)
    else none
  else none

/-- Mutable state of the tracker: `self.last_model_file` holds the last
returned checkpoint's path (file identity = name within the job dir). -/
structure DDState where
  lastModelFile : Option String
deriving DecidableEq, Repr

/-- Key computation done by `sorted(..., key=...)` over the glob matches,
in listing order: the first name the regex rejects raises. -/
def keyModelFiles : List (String × List Nat) → Except String (List (Nat × String × List Nat))
  | [] => .ok []
  | f :: t =>
    match parseQNum f.1 with
    | none => .error ("AttributeError: NoneType object has no attribute groups: " ++ f.1)
    | some n => (keyModelFiles t).map (fun r => (n, f.1, f.2) :: r)

/-- Last element of the stable ascending sort by key: the latest-listed
entry among those with the maximal key. -/
def maxKeyed : List (Nat × String × List Nat) → Option (Nat × String × List Nat)
  | [] => none
  | x :: xs => some (xs.foldl (fun best y => if y.1 ≥ best.1 then y else best) x)

/-- `DeepDeepProcess.get_new_model` over the directory contents `files`
and the tracker state. -/
def get_new_model (files : List (String × List Nat)) (s : DDState) :
    Except String (Option (List Nat) × DDState) :=
  match keyModelFiles (files.filter (fun f => globQJoblib f.1)) with
  | .error e => .error e
  | .ok keyed =>
    match maxKeyed keyed with
    | none => .ok (none, s)
    | some (_, name, bytes) =>
      if s.lastModelFile = some name then .ok (none, s)
      else .ok (some bytes, { lastModelFile := some name })

/-! ### `encode_model_data` / `decode_model_data` (service.py:155-162)

```
def encode_model_data(data):
    if data:
        return base64.b64encode(zlib.compress(data)).decode('ascii')

def decode_model_data(data):
    if data is not None:
        return zlib.decompress(base64.b64decode(data))
```
`zlib` and `base64` are external libraries, passed in as functions;
`if data:` is falsy both for `None` and for the empty byte string. -/

def encode_model_data (compress : List Nat → List Nat) (b64encode : List Nat → String)
    (data : Option (List Nat)) : Option String :=
  match data with
  | some d => if d = [] then none else some (b64encode (compress d))
  | none => none

def decode_model_data (decompress : List Nat → List Nat) (b64decode : String → List Nat)
    (data : Option String) : Option (List Nat) :=
  match data with
  | some s => some (decompress (b64decode s))
  | none => none

/-! ### `get_updates_from_item` (deepdeep_crawl.py:125-149)

The item is the json record's fields this function touches; every field
is optional.  The numeric counters are ints, `reward` / `return` / `t`
are floats modelled as `ℚ` (the field `return` is a Lean keyword and is
called `ret` here). -/

structure Item where
  url : Option String
  reward : Option ℚ
  processed : Option Int
  crawled_domains : Option Int
  relevant_domains : Option Int
  ret : Option ℚ
  t : Option ℚ
  enqueued : Option Int
  domains_open : Option Int
deriving DecidableEq

/-- One entry of the `pages` sample: `{'url': url}` plus `'score'` when a
reward is present. -/
structure Page where
  url : String
  score : Option ℚ
deriving DecidableEq

/-- Python `'{:,}'.format(n)` digit grouping, applied to the reversed
digit list. -/
def commaGroupRev : List Char → List Char
  | [] => []
  | [a] => [a]
  | [a, b] => [a, b]
  | [a, b, c] => [a, b, c]
  | a :: b :: c :: rest => a :: b :: c :: ',' :: commaGroupRev rest

/-- Python `'{:,}'.format(n)` on an int: thousands separated by commas. -/
def fmtComma (n : Int) : String :=
  let s := String.mk ((commaGroupRev (toString n.natAbs).data.reverse).reverse)
  if n < 0 then "-" ++ s else s

/-- Python `'{:.1f}'.format(x)`: one digit after the decimal point.  The
binary float is modelled as an exact rational, rounded here to the
nearest tenth (the claims only exercise values that are exact tenths, so
tie-breaking and negative-zero display are not load-bearing). -/
def fmtFixed1 (q : ℚ) : String :=
  -- the nearest-tenth numerator `⌊10 * q + 1 / 2⌋`, computed directly on the
  -- reduced fraction: `10 * q + 1 / 2 = (20 * num + den) / (2 * den)`
  let n : Int := Int.fdiv (20 * q.num + q.den) (2 * q.den)
  let render : Nat → String := fun m => toString (m / 10) ++ "." ++ toString (m % 10)
  if n < 0 then "-" ++ render (-n).toNat else render n.toNat

/-- The fixed format string of `get_updates_from_item`
(deepdeep_crawl.py:135-147). -/
def renderProgress (pages crawledDomains relevantDomains : Int) (score : ℚ)
    (enqueued domainsOpen : Int) : String :=
  fmtComma pages ++ " pages processed from " ++ fmtComma crawledDomains ++
    " domains (" ++ fmtComma relevantDomains ++ " relevant), average score " ++
    fmtFixed1 score ++ ", " ++ fmtComma enqueued ++ " requests enqueued, " ++
    fmtComma domainsOpen ++ " domains open."

/-- The page sample built from `url = item.pop('url', None)`:
`if url:` is false for a missing url and for the empty string;
`if reward is not None: page_item['score'] = 100 * reward`. -/
def pagesOfItem (item : Item) : List Page :=
  match item.url with
  | some u => if u = "" then [] else [⟨u, item.reward.map (fun r => 100 * r)⟩]
  | none => []

/-- The score argument
`(100 * item['return'] / item['t']) if item.get('t') else 0`:
`item.get('t')` is truthy iff `t` is present and nonzero, and then
`item['return']` raises `KeyError` when the key is absent. -/
def scoreOfItem (item : Item) : Except String ℚ :=
  match item.t with
  | some tv =>
    if tv = 0 then .ok 0
    else
      match item.ret with
      | some r => .ok (100 * r / tv)
      | none => .error "KeyError: return"
  | none => .ok 0

/-- `get_updates_from_item` (deepdeep_crawl.py:125-149): the progress
line and the page sample, or the exception escaping from the score
computation. -/
def get_updates_from_item (item : Item) : Except String (String × List Page) :=
  (scoreOfItem item).map (fun sc =>
    (renderProgress (item.processed.getD 0) (item.crawled_domains.getD 0)
       (item.relevant_domains.getD 0) sc (item.enqueued.getD 0)
       (item.domains_open.getD 0),
     pagesOfItem item))

/-- Trivial stand-ins for the external `base64` pair, used to instantiate
the transport-encoding theorems at concrete inputs. -/
def constStr : List Nat → String := fun _ => "x"

def constBytes : String → List Nat := fun _ => [1, 2, 3]

/-! ### Concrete fixtures used to instantiate the theorems -/

/-- A registered process whose `stop()` succeeds. -/
def pOld : Proc := ⟨"a", false, false, 0⟩

/-- A registered process whose `stop()` raises. -/
def pOldBad : Proc := ⟨"a", true, false, 1⟩

/-- A replacement process whose `start()` succeeds. -/
def pNew : Proc := ⟨"a", false, false, 2⟩

/-- A runtime in which every handle inspects as alive. -/
def inspectAlive : String → InspectResult := fun _ => .state true

/-- The worked progress-formatting example of the spec:
`{processed: 10, crawled_domains: 2, relevant_domains: 1, return: 50, t: 100,
enqueued: 5, domains_open: 3}`. -/
def itemEx : Item := ⟨none, none, some 10, some 2, some 1, some 50, some 100, some 5, some 3⟩

/-- An item record carrying a nonzero `t` but no `return` key. -/
def itemNoReturn : Item := ⟨none, none, none, none, none, none, some 100, none, none⟩

/-- The item record with every key absent. -/
def itemEmpty : Item := ⟨none, none, none, none, none, none, none, none, none⟩

/-! ## Auxiliary lemmas about the dict primitives -/

theorem lookupKey_setKey_self {α : Type} (l : List (String × α)) (k : String) (v : α) :
    lookupKey (setKey l k v) k = some v := by
  induction l with
  | nil => simp [setKey, lookupKey]
  | cons hd t ih =>
    by_cases h : hd.1 = k
    · simp [setKey, lookupKey, h]
    · simp only [setKey, lookupKey]
      rw [if_neg h, lookupKey, if_neg h]
      exact ih


theorem lookupKey_setKey_ne {α : Type} (l : List (String × α)) (k k' : String) (v : α)
    (h : k' ≠ k) : lookupKey (setKey l k v) k' = lookupKey l k' := by
  induction l with
  | nil =>
    simp only [setKey, lookupKey]
    rw [if_neg (fun e => h e.symm)]
  | cons hd t ih =>
    by_cases hk : hd.1 = k
    · simp only [setKey, if_pos hk, lookupKey]
      have hne : ¬ hd.1 = k' := by rw [hk]; exact fun e => h e.symm
      rw [if_neg hne, if_neg hne]
    · simp only [setKey, if_neg hk, lookupKey]
      by_cases hk' : hd.1 = k'
      · rw [if_pos hk', if_pos hk']
      · rw [if_neg hk', if_neg hk']
        exact ih

theorem mem_keys_setKey {α : Type} (l : List (String × α)) (k : String) (v : α) (x : String)
    (hx : x ∈ (setKey l k v).map Prod.fst) : x = k ∨ x ∈ l.map Prod.fst := by
  induction l with
  | nil =>
    simp only [setKey, List.map_cons, List.map_nil, List.mem_singleton] at hx
    exact Or.inl hx
  | cons hd t ih =>
    by_cases hk : hd.1 = k
    · simp only [setKey, if_pos hk, List.map_cons, List.mem_cons] at hx
      exact Or.inr (by simpa using hx)
    · simp only [setKey, if_neg hk, List.map_cons, List.mem_cons] at hx
      rcases hx with hx | hx
      · exact Or.inr (by simp [hx])
      · rcases ih hx with he | he
        · exact Or.inl he
        · exact Or.inr (by simp [he])

theorem keysNodup_setKey {α : Type} (l : List (String × α)) (k : String) (v : α)
    (h : keysNodup l) : keysNodup (setKey l k v) := by
  induction l with
  | nil => simp [setKey, keysNodup]
  | cons hd t ih =>
    obtain ⟨a, b⟩ := hd
    have h' : a ∉ t.map Prod.fst ∧ (t.map Prod.fst).Nodup := by
      simpa [keysNodup] using h
    by_cases hk : a = k
    · simp only [setKey, if_pos hk, keysNodup, List.map_cons, List.nodup_cons]
      exact ⟨h'.1, h'.2⟩
    · simp only [setKey, if_neg hk, keysNodup, List.map_cons, List.nodup_cons]
      refine ⟨fun hmem => ?_, ?_⟩
      · rcases mem_keys_setKey t k v a hmem with he | he
        · exact hk he
        · exact h'.1 he
      · have := ih (by simpa [keysNodup] using h'.2)
        simpa [keysNodup] using this

/-! ## Claim C1 — `Service.start_crawl` replacing an existing process -/

/-- C1 (counterexample): with a registered process for `"a"` whose
`stop()` raises, `start_crawl` leaves the registry without any process
for `"a"` and never starts or registers the new process — refuting the
claim that the new process is still constructed, started and registered
when the stop call fails. -/
theorem c1_start_crawl_cex :
    start_crawl [("a", pOldBad)] "a" pNew = ([], [Ev.stopCalled pOldBad], false)
    ∧ lookupKey (start_crawl [("a", pOldBad)] "a" pNew).1 "a" ≠ some pNew := by
  decide

/-- C1 (amended): when a process is registered under the id, the handler
pops it and calls its `stop()` first.  If the stop succeeds (and the new
process's `start()` does not raise), the new process is started and
registered after the stop, as the event order shows.  If the stop
raises, `log_ignore_exception` catches the exception at the handler
boundary: the old entry stays popped, and the new process is neither
started nor registered. -/
theorem c1_start_crawl_replace (running : List (String × Proc)) (id : String)
    (old newProc : Proc) (h : lookupKey running id = some old) :
    (old.stopFails = false → newProc.startFails = false →
      start_crawl running id newProc =
        (setKey (eraseKey running id) id newProc,
         [.stopCalled old, .startCalled newProc, .registered id newProc], true))
    ∧ (old.stopFails = true →
      start_crawl running id newProc = (eraseKey running id, [.stopCalled old], false)) := by
  constructor
  · intro h₁ h₂
    simp [start_crawl, h, h₁, h₂]
  · intro h₁
    simp [start_crawl, h, h₁]

/-- C1 (witness): the amended theorem applied at a concrete registry. -/
theorem c1_start_crawl_replace_witness :
    start_crawl [("a", pOld)] "a" pNew =
      (setKey (eraseKey [("a", pOld)] "a") "a" pNew,
       [.stopCalled pOld, .startCalled pNew, .registered "a" pNew], true) :=
  (c1_start_crawl_replace [("a", pOld)] "a" pOld pNew (by decide)).1 rfl rfl

/-! ## Claim C2 — `Service.stop_crawl` eviction on stop failure -/

/-- C2 (counterexample): with a registered process for `"a"` whose
`stop()` raises, `stop_crawl` leaves the entry in the registry —
refuting the claim that the in-memory entry is removed even when the
runtime stop call fails. -/
theorem c2_stop_crawl_cex :
    stop_crawl [("a", pOldBad)] "a" = ([("a", pOldBad)], [Ev.stopCalled pOldBad], false)
    ∧ lookupKey (stop_crawl [("a", pOldBad)] "a").1 "a" = some pOldBad := by
  decide

/-- C2 (amended): for a stop-crawl command whose id is registered, the
handler calls `stop()` first and pops the entry after it; when `stop()`
raises, the exception is caught and logged at the handler boundary
(`log_ignore_exception`) and the entry remains registered — eviction
happens only when the stop call succeeds. -/
theorem c2_stop_crawl_eviction (running : List (String × Proc)) (id : String)
    (p : Proc) (h : lookupKey running id = some p) :
    (p.stopFails = false →
      stop_crawl running id = (eraseKey running id, [.stopCalled p], true))
    ∧ (p.stopFails = true →
      stop_crawl running id = (running, [.stopCalled p], false)) := by
  constructor
  · intro h₁
    simp [stop_crawl, h, h₁]
  · intro h₁
    simp [stop_crawl, h, h₁]

/-- C2 (witness): the amended theorem applied at a concrete registry. -/
theorem c2_stop_crawl_eviction_witness :
    stop_crawl [("a", pOld)] "a" = (eraseKey [("a", pOld)] "a", [.stopCalled pOld], true)
    ∧ stop_crawl [("a", pOldBad)] "a" = ([("a", pOldBad)], [.stopCalled pOldBad], false) :=
  ⟨(c2_stop_crawl_eviction [("a", pOld)] "a" pOld (by decide)).1 rfl,
   (c2_stop_crawl_eviction [("a", pOldBad)] "a" pOldBad (by decide)).2 rfl⟩

/-! ## Claim C4 — `DeepDeepProcess.load_running` on a missing file -/

/-- C4: whenever any of the four required files (`id.txt`, `pid.txt`,
`seeds.txt`, `page_clf.joblib`) is missing from the job directory,
`load_running` returns none, whatever the runtime reports. -/
theorem c4_load_running_missing_file (dir : JobDir) (inspect : String → InspectResult)
    (h : dir.idFile = none ∨ dir.pidFile = none ∨ dir.seedsFile = none
      ∨ dir.pageClfFile = none) :
    (load_running dir inspect).1 = none := by
  obtain ⟨i, p, s, c⟩ := dir
  simp only at h
  cases i <;> cases p <;> cases s <;> cases c <;> simp_all [load_running]

/-- C4 (witness): a directory with the id marker missing loads to none. -/
theorem c4_load_running_missing_file_witness :
    (load_running ⟨none, some "cid", some ["http://e.com"], some [1]⟩ inspectAlive).1 = none :=
  c4_load_running_missing_file ⟨none, some "cid", some ["http://e.com"], some [1]⟩
    inspectAlive (Or.inl rfl)

/-! ## Claim C5 — `CrawlProcess.get_updates` deduplication -/

/-- C5: `get_updates` returns none when the derived progress text equals
`last_progress` (and then leaves the state untouched); on a differing
text it returns the update and sets `last_progress` to the new text and
`last_progress_time` to the current time; and immediately repeating the
call with the same derived text always returns none — each distinct text
transition is reported exactly once. -/
theorem c5_get_updates_dedup (s : CrawlState) (p : String) (pg : List String)
    (now now₂ : ℚ) :
    (s.lastProgress = some p → get_updates s (some (p, pg)) now = (none, s))
    ∧ (s.lastProgress ≠ some p →
        get_updates s (some (p, pg)) now =
          (some (p, pg),
           { s with lastProgress := some p, lastProgressTime := some now }))
    ∧ get_updates (get_updates s (some (p, pg)) now).2 (some (p, pg)) now₂ =
        (none, (get_updates s (some (p, pg)) now).2) := by
  refine ⟨fun h => by simp [get_updates, h], fun h => by simp [get_updates, h], ?_⟩
  by_cases h : s.lastProgress = some p <;> simp [get_updates, h]

/-- C5 (witness): the theorem applied at concrete states, both on the
equal-text path and on the changed-text path. -/
theorem c5_get_updates_dedup_witness :
    get_updates ⟨some "5 pages", none, 3⟩ (some ("5 pages", [])) 7 =
      (none, ⟨some "5 pages", none, 3⟩)
    ∧ get_updates ⟨some "5 pages", none, 3⟩ (some ("6 pages", ["u"])) 7 =
        (some ("6 pages", ["u"]), ⟨some "6 pages", some 7, 3⟩) :=
  ⟨(c5_get_updates_dedup ⟨some "5 pages", none, 3⟩ "5 pages" [] 7 7).1 rfl,
   (c5_get_updates_dedup ⟨some "5 pages", none, 3⟩ "6 pages" ["u"] 7 7).2.1 (by decide)⟩

/-! ## Claim C9 — `CrawlProcess.get_n_last` -/

/-- C9: `get_n_last` returns 1 when no progress has ever been observed
(`last_progress_time` unset); otherwise, for idle time `(now - t) / 60`
minutes since the last progress change and the target rate
`target_sample_rate_pm` per minute, it returns the ceiling of their
product. -/
theorem c9_get_n_last_quota (s : CrawlState) (now : ℚ) :
    (s.lastProgressTime = none → get_n_last s now = 1)
    ∧ ∀ t, s.lastProgressTime = some t →
        get_n_last s now = ⌈s.targetSampleRatePm * ((now - t) / 60)⌉ := by
  constructor
  · intro h
    simp [get_n_last, h]
  · intro t h
    simp [get_n_last, h]

/-- C9 (witness): cold start gives 1; two idle minutes at rate 3 per
minute give a quota of 6. -/
theorem c9_get_n_last_quota_witness :
    get_n_last ⟨none, none, 3⟩ 50 = 1 ∧ get_n_last ⟨none, some 0, 3⟩ 120 = 6 := by
  refine ⟨(c9_get_n_last_quota ⟨none, none, 3⟩ 50).1 rfl, ?_⟩
  rw [(c9_get_n_last_quota ⟨none, some 0, 3⟩ 120).2 0 rfl]
  norm_num

/-! ## Claim C7 — model-data transport encoding round trip -/

/-- C7 (counterexample): the empty byte string encodes to an absent
payload, which decodes to an absent payload, not back to the empty byte
string — so `decode(encode(b)) = b` fails at `b = b''` (the library
stand-ins are irrelevant: the encoder returns `None` before calling
them). -/
theorem c7_roundtrip_cex :
    decode_model_data id constBytes (encode_model_data id constStr (some [])) ≠
      some ([] : List Nat) := by
  decide

/-- C7 (amended): for every nonempty byte sequence `d` (with the external
`zlib` and `base64` collaborators inverting each other on it),
`decode_model_data (encode_model_data d) = d`; the empty byte string and
an absent input both encode to an absent payload, and an absent payload
decodes to an absent result. -/
theorem c7_model_data_roundtrip (compress decompress : List Nat → List Nat)
    (b64encode : List Nat → String) (b64decode : String → List Nat)
    (d : List Nat) (hd : d ≠ [])
    (hb64 : b64decode (b64encode (compress d)) = compress d)
    (hzlib : decompress (compress d) = d) :
    decode_model_data decompress b64decode
        (encode_model_data compress b64encode (some d)) = some d
    ∧ encode_model_data compress b64encode (some []) = none
    ∧ encode_model_data compress b64encode none = none
    ∧ decode_model_data decompress b64decode none = none := by
  refine ⟨?_, rfl, rfl, rfl⟩
  simp [encode_model_data, decode_model_data, hd, hb64, hzlib]

/-- C7 (witness): the amended round trip at the concrete byte sequence
`[1, 2, 3]`, with identity compression and a transport pair that inverts
on it. -/
theorem c7_model_data_roundtrip_witness :
    decode_model_data id constBytes (encode_model_data id constStr (some [1, 2, 3])) =
      some [1, 2, 3]
    ∧ encode_model_data id constStr (some []) = none
    ∧ encode_model_data id constStr none = none
    ∧ decode_model_data id constBytes none = none :=
  c7_model_data_roundtrip id id constStr constBytes [1, 2, 3] (by decide) rfl rfl


/-- C8 (counterexample): an item record with `t` present and nonzero but
no `return` key makes `get_updates_from_item` raise `KeyError` — so the
function does not produce the progress line without failing for every
record of optional numeric fields. -/
theorem c8_progress_cex :
    get_updates_from_item itemNoReturn = .error "KeyError: return" := by
  rfl

/-- C8 (amended): for every item record in which `return` is present
whenever `t` is present and nonzero, `get_updates_from_item` produces
the fixed-format progress line: each of the counters (pages processed,
crawled domains, relevant domains, requests enqueued, open domains)
defaults to zero when absent, and the average score equals
`100 * return / t` when `t` is present and nonzero and is zero when `t`
is zero or absent (no division by zero); in particular the empty record
yields the all-zero line with score 0.0 and no failure. -/
theorem c8_progress_formatting (item : Item)
    (h : ∀ tv, item.t = some tv → tv ≠ 0 → item.ret ≠ none) :
    (∃ sc,
      get_updates_from_item item =
        .ok (renderProgress (item.processed.getD 0) (item.crawled_domains.getD 0)
              (item.relevant_domains.getD 0) sc (item.enqueued.getD 0)
              (item.domains_open.getD 0),
             pagesOfItem item)
      ∧ ((item.t = none ∨ item.t = some 0) → sc = 0)
      ∧ (∀ tv r, item.t = some tv → tv ≠ 0 → item.ret = some r → sc = 100 * r / tv))
    ∧ get_updates_from_item itemEmpty =
        .ok ("0 pages processed from 0 domains (0 relevant), average score 0.0, 0 requests enqueued, 0 domains open.",
             []) := by
  refine ⟨?_, by rfl⟩
  obtain ⟨u, rw₀, pr, cd, rd, rt, tt, en, dop⟩ := item
  rcases tt with _ | tv
  · exact ⟨0, by simp [get_updates_from_item, scoreOfItem, Except.map], fun _ => rfl,
      fun tv r h₁ => by cases h₁⟩
  · by_cases htv : tv = 0
    · subst htv
      refine ⟨0, by simp [get_updates_from_item, scoreOfItem, Except.map], fun _ => rfl, ?_⟩
      intro tv' r h₁ h₂ h₃
      cases h₁
      exact absurd rfl h₂
    · rcases rt with _ | r
      · exact absurd rfl (h tv rfl htv)
      · refine ⟨100 * r / tv,
          by simp [get_updates_from_item, scoreOfItem, htv, Except.map], ?_, ?_⟩
        · intro hc
          rcases hc with hc | hc
          · cases hc
          · injection hc with he
            exact absurd he htv
        · intro tv' r' h₁ h₂ h₃
          cases h₁
          cases h₃
          rfl

/-- C8 (witness): the amended theorem applied at the spec's worked
example, giving score 50.0 and the counters verbatim. -/
theorem c8_progress_formatting_witness :
    get_updates_from_item itemEx =
      .ok ("10 pages processed from 2 domains (1 relevant), average score 50.0, 5 requests enqueued, 3 domains open.",
           []) := by
  obtain ⟨⟨sc, hok, _, hsc⟩, _⟩ :=
    c8_progress_formatting itemEx (fun tv _ _ => by simp [itemEx])
  rw [hok, hsc 100 50 rfl (by norm_num) rfl,
    show (100 * 50 / 100 : ℚ) = 50 by norm_num]
  rfl

/-! ## Auxiliary lemmas about the checkpoint scan -/

theorem keyModelFiles_ok (l : List (String × List Nat))
    (h : ∀ f ∈ l, (parseQNum f.1).isSome) :
    ∃ k, keyModelFiles l = .ok k
      ∧ ∀ e ∈ k, ∃ f ∈ l, f.1 = e.2.1 ∧ parseQNum f.1 = some e.1 := by
  induction l with
  | nil => exact ⟨[], rfl, by simp⟩
  | cons f t ih =>
    have hf := h f (List.mem_cons_self f t)
    rcases hp : parseQNum f.1 with _ | n
    · simp [hp] at hf
    · obtain ⟨k, hk, hspec⟩ := ih (fun g hg => h g (List.mem_cons_of_mem f hg))
      refine ⟨(n, f.1, f.2) :: k, ?_, ?_⟩
      · simp [keyModelFiles, hp, hk, Except.map]
      · intro e he
        rcases List.mem_cons.1 he with rfl | he
        · exact ⟨f, List.mem_cons_self f t, rfl, hp⟩
        · obtain ⟨g, hg, h1, h2⟩ := hspec e he
          exact ⟨g, List.mem_cons_of_mem f hg, h1, h2⟩

theorem keyModelFiles_append_single (l : List (String × List Nat))
    (k : List (Nat × String × List Nat)) (name : String) (n : Nat) (b : List Nat)
    (hk : keyModelFiles l = .ok k) (hp : parseQNum name = some n) :
    keyModelFiles (l ++ [(name, b)]) = .ok (k ++ [(n, name, b)]) := by
  induction l generalizing k with
  | nil =>
    simp only [keyModelFiles] at hk
    cases hk
    simp [keyModelFiles, hp, Except.map]
  | cons f t ih =>
    rcases hpf : parseQNum f.1 with _ | m
    · simp [keyModelFiles, hpf] at hk
    · cases hnext : keyModelFiles t with
      | error e =>
        simp [keyModelFiles, hpf, hnext, Except.map] at hk
      | ok k₂ =>
        simp only [keyModelFiles, hpf, hnext, Except.map] at hk
        cases hk
        simp [List.cons_append, keyModelFiles, hpf, ih k₂ hnext, Except.map]

theorem keyModelFiles_error (l : List (String × List Nat)) (f : String × List Nat)
    (hf : f ∈ l) (hp : parseQNum f.1 = none) :
    ∃ e, keyModelFiles l = .error e := by
  induction l with
  | nil => cases hf
  | cons g t ih =>
    rcases List.mem_cons.1 hf with rfl | hf₂
    · exact ⟨"AttributeError: NoneType object has no attribute groups: " ++ f.1,
        by simp [keyModelFiles, hp]⟩
    · rcases hpg : parseQNum g.1 with _ | m
      · exact ⟨"AttributeError: NoneType object has no attribute groups: " ++ g.1,
          by simp [keyModelFiles, hpg]⟩
      · obtain ⟨e, he⟩ := ih hf₂
        exact ⟨e, by simp [keyModelFiles, hpg, he, Except.map]⟩

theorem foldl_max_last (t : List (Nat × String × List Nat)) :
    ∀ a e : Nat × String × List Nat, a.1 ≤ e.1 → (∀ y ∈ t, y.1 ≤ e.1) →
      (t ++ [e]).foldl (fun best y => if y.1 ≥ best.1 then y else best) a = e := by
  induction t with
  | nil =>
    intro a e ha _
    show (if e.1 ≥ a.1 then e else a) = e
    exact if_pos ha
  | cons y t ih =>
    intro a e ha hy
    simp only [List.cons_append, List.foldl_cons]
    by_cases h : y.1 ≥ a.1
    · rw [if_pos h]
      exact ih y e (hy y (List.mem_cons_self y t)) fun z hz => hy z (List.mem_cons_of_mem y hz)
    · rw [if_neg h]
      exact ih a e ha fun z hz => hy z (List.mem_cons_of_mem y hz)

theorem maxKeyed_append (k : List (Nat × String × List Nat)) (e : Nat × String × List Nat)
    (h : ∀ y ∈ k, y.1 ≤ e.1) : maxKeyed (k ++ [e]) = some e := by
  cases k with
  | nil => rfl
  | cons a t =>
    show some ((t ++ [e]).foldl _ a) = some e
    rw [foldl_max_last t a e (h a (List.mem_cons_self a t))
      fun z hz => h z (List.mem_cons_of_mem a hz)]

/-! ## Claim C10 — the checkpoint scan's candidate set and failure mode -/

/-- C10 (counterexample): a file whose name matches the glob
`Q-*.joblib` but not the regex `Q-(\d+)\.joblib` is not ignored: the
sort-key computation raises `AttributeError` and `get_new_model` fails —
refuting the claim that the scan completes without failure when files of
any other shape are present. -/
theorem c10_scan_cex :
    get_new_model [("Q-.joblib", [])] ⟨none⟩ =
      .error "AttributeError: NoneType object has no attribute groups: Q-.joblib" := by
  rfl

/-- C10 (amended): the scan's candidates are exactly the files matching
the glob `Q-*.joblib`: a file not matching the glob is ignored (removing
it from the directory never changes the result), and the scan completes
without failure whenever every glob-matching file also matches the
`Q-<integer>.joblib` prefix pattern; but a glob-matching file that the
integer pattern rejects makes `get_new_model` raise (`AttributeError`)
rather than being ignored. -/
theorem c10_scan_candidates :
    (∀ files₁ files₂ f s, globQJoblib f.1 = false →
      get_new_model (files₁ ++ f :: files₂) s = get_new_model (files₁ ++ files₂) s)
    ∧ (∀ files s, (∀ f ∈ files, globQJoblib f.1 = true → (parseQNum f.1).isSome) →
      ∃ r, get_new_model files s = .ok r)
    ∧ (∀ files s f, f ∈ files → globQJoblib f.1 = true → parseQNum f.1 = none →
      ∃ e, get_new_model files s = .error e) := by
  refine ⟨?_, ?_, ?_⟩
  · intro files₁ files₂ f s hf
    have hfil : (files₁ ++ f :: files₂).filter (fun g => globQJoblib g.1)
        = (files₁ ++ files₂).filter (fun g => globQJoblib g.1) := by
      simp [List.filter_append, List.filter_cons, hf]
    unfold get_new_model
    rw [hfil]
  · intro files s h
    obtain ⟨keyed, hk, _⟩ := keyModelFiles_ok (files.filter (fun g => globQJoblib g.1))
      fun f hf => h f (List.mem_filter.1 hf).1 (List.mem_filter.1 hf).2
    rcases hm : maxKeyed keyed with _ | ⟨m, nm, bs⟩
    · exact ⟨(none, s), by simp [get_new_model, hk, hm]⟩
    · by_cases hl : s.lastModelFile = some nm
      · exact ⟨(none, s), by simp [get_new_model, hk, hm, hl]⟩
      · exact ⟨(some bs, ⟨some nm⟩), by simp [get_new_model, hk, hm, hl]⟩
  · intro files s f hf hg hp
    obtain ⟨e, he⟩ := keyModelFiles_error (files.filter (fun g => globQJoblib g.1)) f
      (List.mem_filter.2 ⟨hf, hg⟩) hp
    exact ⟨e, by simp [get_new_model, he]⟩

/-- C10 (witness): a non-glob file (`spider.log`) is ignored by the
scan, and a directory whose glob matches all parse scans without
failure. -/
theorem c10_scan_candidates_witness :
    get_new_model ([("Q-1.joblib", [7])] ++ ("spider.log", [1]) :: []) ⟨none⟩ =
      get_new_model ([("Q-1.joblib", [7])] ++ []) ⟨none⟩
    ∧ ∃ r, get_new_model [("Q-1.joblib", [7]), ("items.jl.gz", [])] ⟨none⟩ = .ok r :=
  ⟨c10_scan_candidates.1 [("Q-1.joblib", [7])] [] ("spider.log", [1]) ⟨none⟩ (by decide),
   c10_scan_candidates.2.1 [("Q-1.joblib", [7]), ("items.jl.gz", [])] ⟨none⟩ (by
    intro f hf hg
    rcases List.mem_cons.1 hf with rfl | hf₂
    · decide
    · rcases List.mem_singleton.1 hf₂ with rfl
      exact absurd hg (by decide))⟩

/-! ## Claim C6 — at-most-once delivery of the newest checkpoint -/

/-- C6: `get_new_model` delivers the selected maximum-numbered
checkpoint exactly once.  First, whenever a call returns some bytes,
repeating the call over the unchanged directory returns none.  Second,
after a checkpoint numbered strictly above every glob-matching
candidate appears, the next call returns exactly that file's bytes and
the call after it returns none.  Third, delivery is keyed by file
identity: when the remembered last file reference has the selected
file's name, nothing is returned regardless of the file's current
content. -/
theorem c6_model_delivered_once :
    (∀ files s b s₂, get_new_model files s = .ok (some b, s₂) →
      get_new_model files s₂ = .ok (none, s₂))
    ∧ (∀ files s name n b,
        globQJoblib name = true → parseQNum name = some n →
        (∀ f ∈ files, globQJoblib f.1 = true →
          ∃ k, parseQNum f.1 = some k ∧ k < n) →
        s.lastModelFile ≠ some name →
        get_new_model (files ++ [(name, b)]) s = .ok (some b, ⟨some name⟩)
        ∧ get_new_model (files ++ [(name, b)]) ⟨some name⟩ = .ok (none, ⟨some name⟩))
    ∧ (∀ name n b₂ s, globQJoblib name = true → parseQNum name = some n →
        s.lastModelFile = some name →
        get_new_model [(name, b₂)] s = .ok (none, s)) := by
  refine ⟨?_, ?_, ?_⟩
  · intro files s b s₂ h
    cases hk : keyModelFiles (files.filter (fun g => globQJoblib g.1)) with
    | error e => simp [get_new_model, hk] at h
    | ok keyed =>
      rcases hm : maxKeyed keyed with _ | ⟨m, nm, bs⟩
      · simp [get_new_model, hk, hm] at h
      · by_cases hl : s.lastModelFile = some nm
        · simp [get_new_model, hk, hm, hl] at h
        · have h' : (some bs, (⟨some nm⟩ : DDState)) = (some b, s₂) := by
            simpa [get_new_model, hk, hm, hl] using h
          have hs₂ : (⟨some nm⟩ : DDState) = s₂ := congrArg Prod.snd h'
          simp [get_new_model, hk, hm, ← hs₂]
  · intro files s name n b hg hp h3 hl
    have hfil : (files ++ [(name, b)]).filter (fun g => globQJoblib g.1)
        = files.filter (fun g => globQJoblib g.1) ++ [(name, b)] := by
      simp [List.filter_append, List.filter_cons, hg]
    obtain ⟨keyed, hk, hspec⟩ := keyModelFiles_ok (files.filter (fun g => globQJoblib g.1))
      (fun f hf => by
        obtain ⟨k, hpk, _⟩ := h3 f (List.mem_filter.1 hf).1 (List.mem_filter.1 hf).2
        simp [hpk])
    have hk2 : keyModelFiles ((files ++ [(name, b)]).filter (fun g => globQJoblib g.1))
        = .ok (keyed ++ [(n, name, b)]) := by
      rw [hfil]
      exact keyModelFiles_append_single _ keyed name n b hk hp
    have hmax : maxKeyed (keyed ++ [(n, name, b)]) = some (n, name, b) := by
      apply maxKeyed_append
      intro y hy
      obtain ⟨f, hf, _, hpf⟩ := hspec y hy
      obtain ⟨k, hpk, hkn⟩ := h3 f (List.mem_filter.1 hf).1 (List.mem_filter.1 hf).2
      rw [hpf] at hpk
      cases hpk
      exact Nat.le_of_lt hkn
    constructor
    · simp only [get_new_model, hk2, hmax]
      rw [if_neg hl]
    · simp only [get_new_model, hk2, hmax]
      simp
  · intro name n b₂ s hg hp hl
    have hfil : [(name, b₂)].filter (fun g => globQJoblib g.1) = [(name, b₂)] := by
      simp [List.filter_cons, hg]
    simp [get_new_model, hfil, keyModelFiles, hp, Except.map, maxKeyed, hl]

/-- C6 (witness): with checkpoints `Q-1.joblib` and a newly appeared
`Q-2.joblib`, the scan returns the bytes of `Q-2.joblib` once and none
on the repeat call. -/
theorem c6_model_delivered_once_witness :
    get_new_model ([("Q-1.joblib", [7])] ++ [("Q-2.joblib", [9])]) ⟨none⟩ =
      .ok (some [9], ⟨some "Q-2.joblib"⟩)
    ∧ get_new_model ([("Q-1.joblib", [7])] ++ [("Q-2.joblib", [9])]) ⟨some "Q-2.joblib"⟩ =
      .ok (none, ⟨some "Q-2.joblib"⟩) :=
  c6_model_delivered_once.2.1 [("Q-1.joblib", [7])] ⟨none⟩ "Q-2.joblib" 2 [9]
    (by decide) (by decide)
    (by
      intro f hf _
      rcases List.mem_singleton.1 hf with rfl
      exact ⟨1, by decide, by decide⟩)
    (by decide)

/-! ## Auxiliary lemmas about registry reconciliation -/

theorem lookupKey_mem {α : Type} (l : List (String × α)) (k : String) (v : α)
    (h : lookupKey l k = some v) : (k, v) ∈ l := by
  induction l with
  | nil => cases h
  | cons hd t ih =>
    obtain ⟨a, b⟩ := hd
    by_cases hk : a = k
    · simp only [lookupKey, if_pos hk] at h
      cases h
      subst hk
      exact List.mem_cons_self _ _
    · simp only [lookupKey, if_neg hk] at h
      exact List.mem_cons_of_mem _ (ih h)

theorem mem_setKey {α : Type} (l : List (String × α)) (k : String) (v : α) (kv : String × α)
    (h : kv ∈ setKey l k v) : kv = (k, v) ∨ kv ∈ l := by
  induction l with
  | nil =>
    simp only [setKey, List.mem_singleton] at h
    exact Or.inl h
  | cons hd t ih =>
    obtain ⟨a, b⟩ := hd
    by_cases hk : a = k
    · simp only [setKey, if_pos hk] at h
      rcases List.mem_cons.1 h with heq | hmem
      · exact Or.inl (by rw [heq, hk])
      · exact Or.inr (List.mem_cons_of_mem _ hmem)
    · simp only [setKey, if_neg hk] at h
      rcases List.mem_cons.1 h with heq | hmem
      · exact Or.inr (by rw [heq]; exact List.mem_cons_self _ _)
      · rcases ih hmem with h₂ | h₂
        · exact Or.inl h₂
        · exact Or.inr (List.mem_cons_of_mem _ h₂)

theorem load_all_loop_append (xs ys : List (Option Proc)) (acc : LoadAcc) :
    load_all_loop acc (xs ++ ys) =
      match load_all_loop acc xs with
      | .error e => .error e
      | .ok a => load_all_loop a ys := by
  induction xs generalizing acc with
  | nil => rfl
  | cons x t ih =>
    cases x with
    | none =>
      simp only [List.cons_append, load_all_loop]
      exact ih acc
    | some p =>
      simp only [List.cons_append, load_all_loop]
      cases hlk : lookupKey acc.running p.id with
      | none => exact ih _
      | some old =>
        dsimp only
        by_cases hs : old.stopFails
        · rw [if_pos hs, if_pos hs]
        · rw [if_neg hs, if_neg hs]
          exact ih _

theorem load_all_loop_append_ok (xs ys : List (Option Proc)) (acc a : LoadAcc)
    (h : load_all_loop acc xs = .ok a) :
    load_all_loop acc (xs ++ ys) = load_all_loop a ys := by
  rw [load_all_loop_append xs ys acc, h]

theorem load_all_step_some (acc : LoadAcc) (p : Proc)
    (hvals : ∀ kv ∈ acc.running, (kv : String × Proc).2.stopFails = false) :
    ∃ st, (∀ rest, load_all_loop acc (some p :: rest) =
        load_all_loop ⟨setKey acc.running p.id p, st⟩ rest)
      ∧ ∀ q₀ ∈ acc.stopped, q₀ ∈ st := by
  cases hlk : lookupKey acc.running p.id with
  | some old =>
    have hof : old.stopFails = false := hvals (p.id, old) (lookupKey_mem _ _ _ hlk)
    refine ⟨acc.stopped ++ [old], ?_, fun q₀ h => List.mem_append_left _ h⟩
    intro rest
    simp only [load_all_loop, hlk]
    rw [if_neg (by simp [hof])]
  | none =>
    exact ⟨acc.stopped, fun rest => by simp only [load_all_loop, hlk], fun q₀ h => h⟩

theorem load_all_loop_main (rest : List (Option Proc)) :
    ∀ acc : LoadAcc,
      (∀ r : Proc, some r ∈ rest → r.stopFails = false) →
      (∀ kv ∈ acc.running, (kv : String × Proc).2.stopFails = false) →
      keysNodup acc.running →
      ∃ acc₂, load_all_loop acc rest = .ok acc₂
        ∧ keysNodup acc₂.running
        ∧ (∀ kv ∈ acc₂.running, (kv : String × Proc).2.stopFails = false)
        ∧ (∀ q₀ ∈ acc.stopped, q₀ ∈ acc₂.stopped)
        ∧ (∀ pid, (∀ r : Proc, some r ∈ rest → r.id ≠ pid) →
            lookupKey acc₂.running pid = lookupKey acc.running pid)
        ∧ (∀ pid q₀, lookupKey acc.running pid = some q₀ →
            (∃ r : Proc, some r ∈ rest ∧ r.id = pid) → q₀ ∈ acc₂.stopped) := by
  induction rest with
  | nil =>
    intro acc _ hvals hnd
    refine ⟨acc, rfl, hnd, hvals, fun q₀ hq => hq, fun _ _ => rfl, ?_⟩
    intro pid q₀ _ hex
    obtain ⟨r, hr, _⟩ := hex
    cases hr
  | cons x t ih =>
    intro acc hrest hvals hnd
    cases x with
    | none =>
      obtain ⟨acc₂, h1, h2, h3, h4, h5, h6⟩ :=
        ih acc (fun r hr => hrest r (List.mem_cons_of_mem _ hr)) hvals hnd
      refine ⟨acc₂, h1, h2, h3, h4, ?_, ?_⟩
      · intro pid hno
        exact h5 pid fun r hr => hno r (List.mem_cons_of_mem _ hr)
      · intro pid q₀ hq hex
        obtain ⟨r, hr, hidr⟩ := hex
        rcases List.mem_cons.1 hr with heq | hr₂
        · cases heq
        · exact h6 pid q₀ hq ⟨r, hr₂, hidr⟩
    | some p =>
      have hpf : p.stopFails = false := hrest p (List.mem_cons_self _ _)
      have hvals' : ∀ kv ∈ setKey acc.running p.id p,
          (kv : String × Proc).2.stopFails = false := by
        intro kv hkv
        rcases mem_setKey _ _ _ _ hkv with heq | hmem
        · rw [heq]
          exact hpf
        · exact hvals kv hmem
      cases hlk : lookupKey acc.running p.id with
      | some old =>
        have hof : old.stopFails = false := hvals (p.id, old) (lookupKey_mem _ _ _ hlk)
        obtain ⟨acc₂, h1, h2, h3, h4, h5, h6⟩ :=
          ih ⟨setKey acc.running p.id p, acc.stopped ++ [old]⟩
            (fun r hr => hrest r (List.mem_cons_of_mem _ hr)) hvals'
            (keysNodup_setKey _ _ _ hnd)
        have hstep : load_all_loop acc (some p :: t) = .ok acc₂ := by
          simp only [load_all_loop, hlk]
          rw [if_neg (by simp [hof])]
          exact h1
        refine ⟨acc₂, hstep, h2, h3, ?_, ?_, ?_⟩
        · intro q₀ hq
          exact h4 q₀ (List.mem_append_left _ hq)
        · intro pid hno
          have hppid : p.id ≠ pid := hno p (List.mem_cons_self _ _)
          rw [h5 pid fun r hr => hno r (List.mem_cons_of_mem _ hr)]
          exact lookupKey_setKey_ne acc.running p.id pid p fun e => hppid e.symm
        · intro pid q₀ hq hex
          by_cases hpid : p.id = pid
          · have hq₀old : q₀ = old := by
              rw [hpid] at hlk
              rw [hlk] at hq
              exact (Option.some.inj hq).symm
            exact h4 q₀
              (by rw [hq₀old]; exact List.mem_append_right _ (List.mem_singleton.2 rfl))
          · obtain ⟨r, hr, hidr⟩ := hex
            rcases List.mem_cons.1 hr with heq | hr₂
            · cases heq
              exact absurd hidr hpid
            · refine h6 pid q₀ ?_ ⟨r, hr₂, hidr⟩
              rw [lookupKey_setKey_ne acc.running p.id pid p fun e => hpid e.symm]
              exact hq
      | none =>
        obtain ⟨acc₂, h1, h2, h3, h4, h5, h6⟩ :=
          ih ⟨setKey acc.running p.id p, acc.stopped⟩
            (fun r hr => hrest r (List.mem_cons_of_mem _ hr)) hvals'
            (keysNodup_setKey _ _ _ hnd)
        have hstep : load_all_loop acc (some p :: t) = .ok acc₂ := by
          simp only [load_all_loop, hlk]
          exact h1
        refine ⟨acc₂, hstep, h2, h3, h4, ?_, ?_⟩
        · intro pid hno
          have hppid : p.id ≠ pid := hno p (List.mem_cons_self _ _)
          rw [h5 pid fun r hr => hno r (List.mem_cons_of_mem _ hr)]
          exact lookupKey_setKey_ne acc.running p.id pid p fun e => hppid e.symm
        · intro pid q₀ hq hex
          by_cases hpid : p.id = pid
          · rw [hpid] at hlk
            rw [hlk] at hq
            cases hq
          · obtain ⟨r, hr, hidr⟩ := hex
            rcases List.mem_cons.1 hr with heq | hr₂
            · cases heq
              exact absurd hidr hpid
            · refine h6 pid q₀ ?_ ⟨r, hr₂, hidr⟩
              rw [lookupKey_setKey_ne acc.running p.id pid p fun e => hpid e.symm]
              exact hq

/-! ## Claim C3 — reconciliation: last writer wins per job id -/

/-- C3: in `load_all_running`, whenever two job directories (the
positions of `some p` and `some q` in the sorted scan, `p` earlier)
resolve to the same JobId and no later directory resolves to that id,
the process built from the earlier directory is stopped, the returned
registry maps the id to the process from the later directory, and the
registry binds each id at most once.  (All `stop()` calls are assumed to
succeed: an unguarded raising stop would abort the whole scan.) -/
theorem c3_reconciliation_last_writer_wins (l₁ l₂ l₃ : List (Option Proc)) (p q : Proc)
    (hid : q.id = p.id)
    (h3 : ∀ r : Proc, some r ∈ l₃ → r.id ≠ p.id)
    (hstop : ∀ r : Proc, some r ∈ l₁ ++ (some p :: (l₂ ++ some q :: l₃)) →
      r.stopFails = false) :
    ∃ acc, load_all_running (l₁ ++ (some p :: (l₂ ++ some q :: l₃))) = .ok acc
      ∧ p ∈ acc.stopped
      ∧ lookupKey acc.running p.id = some q
      ∧ keysNodup acc.running := by
  have hpf : p.stopFails = false :=
    hstop p (List.mem_append_right l₁ (List.mem_cons_self _ _))
  have hqf : q.stopFails = false :=
    hstop q (List.mem_append_right l₁ (List.mem_cons_of_mem _
      (List.mem_append_right l₂ (List.mem_cons_self _ _))))
  have hstop₁ : ∀ r : Proc, some r ∈ l₁ → r.stopFails = false :=
    fun r hr => hstop r (List.mem_append_left _ hr)
  have hstop₂ : ∀ r : Proc, some r ∈ l₂ ++ some q :: l₃ → r.stopFails = false :=
    fun r hr => hstop r (List.mem_append_right l₁ (List.mem_cons_of_mem _ hr))
  have hstop₂a : ∀ r : Proc, some r ∈ l₂ → r.stopFails = false :=
    fun r hr => hstop₂ r (List.mem_append_left _ hr)
  have hstop₃ : ∀ r : Proc, some r ∈ l₃ → r.stopFails = false :=
    fun r hr => hstop₂ r (List.mem_append_right l₂ (List.mem_cons_of_mem _ hr))
  obtain ⟨acc₁, hA1, hA2, hA3, _, _, _⟩ :=
    load_all_loop_main l₁ ⟨[], []⟩ hstop₁ (by intro kv hkv; cases hkv) (by simp [keysNodup])
  obtain ⟨st₁, hstep₁, _⟩ := load_all_step_some acc₁ p hA3
  have hvals₁ : ∀ kv ∈ (⟨setKey acc₁.running p.id p, st₁⟩ : LoadAcc).running,
      (kv : String × Proc).2.stopFails = false := by
    intro kv hkv
    rcases mem_setKey _ _ _ _ hkv with heq | hmem
    · rw [heq]
      exact hpf
    · exact hA3 kv hmem
  have hnd₁ : keysNodup (⟨setKey acc₁.running p.id p, st₁⟩ : LoadAcc).running :=
    keysNodup_setKey _ _ _ hA2
  obtain ⟨accM, hM1, _, _, _, _, hM6⟩ :=
    load_all_loop_main (l₂ ++ some q :: l₃) ⟨setKey acc₁.running p.id p, st₁⟩
      hstop₂ hvals₁ hnd₁
  have hpev : p ∈ accM.stopped :=
    hM6 p.id p (lookupKey_setKey_self _ _ _)
      ⟨q, List.mem_append_right l₂ (List.mem_cons_self _ _), hid⟩
  obtain ⟨acc₂, hB1, hB2, hB3, _, _, _⟩ :=
    load_all_loop_main l₂ ⟨setKey acc₁.running p.id p, st₁⟩ hstop₂a hvals₁ hnd₁
  obtain ⟨st₂, hstep₂, _⟩ := load_all_step_some acc₂ q hB3
  have hvals₂ : ∀ kv ∈ (⟨setKey acc₂.running q.id q, st₂⟩ : LoadAcc).running,
      (kv : String × Proc).2.stopFails = false := by
    intro kv hkv
    rcases mem_setKey _ _ _ _ hkv with heq | hmem
    · rw [heq]
      exact hqf
    · exact hB3 kv hmem
  obtain ⟨accF, hC1, hC2, _, _, hC5, _⟩ :=
    load_all_loop_main l₃ ⟨setKey acc₂.running q.id q, st₂⟩ hstop₃ hvals₂
      (keysNodup_setKey _ _ _ hB2)
  have hBC : load_all_loop (⟨setKey acc₁.running p.id p, st₁⟩ : LoadAcc)
      (l₂ ++ some q :: l₃) = .ok accF := by
    rw [load_all_loop_append_ok l₂ (some q :: l₃) _ acc₂ hB1, hstep₂ l₃, hC1]
  have haccMF : accM = accF := by
    rw [hM1] at hBC
    exact Except.ok.inj hBC
  have hlkq : lookupKey accF.running p.id = some q := by
    rw [hC5 p.id h3]
    show lookupKey (setKey acc₂.running q.id q) p.id = some q
    rw [← hid]
    exact lookupKey_setKey_self _ _ _
  refine ⟨accF, ?_, haccMF ▸ hpev, hlkq, hC2⟩
  unfold load_all_running
  rw [load_all_loop_append_ok l₁ _ ⟨[], []⟩ acc₁ hA1, hstep₁ (l₂ ++ some q :: l₃), hBC]

/-- C3 (witness): two directories resolving to the id `"a"`; the earlier
process is stopped and only the later process remains registered. -/
theorem c3_reconciliation_witness :
    ∃ acc, load_all_running ([] ++ (some pOld :: ([] ++ some pNew :: []))) = .ok acc
      ∧ pOld ∈ acc.stopped
      ∧ lookupKey acc.running pOld.id = some pNew
      ∧ keysNodup acc.running :=
  c3_reconciliation_last_writer_wins [] [] [] pOld pNew rfl
    (fun _ hr => absurd hr (List.not_mem_nil _))
    (fun r hr => by
      rcases List.mem_cons.1 hr with h | h
      · cases h
        rfl
      · rcases List.mem_cons.1 h with h₂ | h₂
        · cases h₂
          rfl
        · cases h₂)
